import Mathlib

/-!
Verification of the youtube extractor core (`extractors/youtube/youtube.go`):
a shallow embedding of the format-resolution pass (`youtubeDownload`,
`genPartByFormat`, `getVideoAudio`, `getStreamExt`) and of the batch path of
`Extract`, together with theorems settling the specification claims.

External collaborators (the `kkdai/youtube` client, `request.Size`,
`utils.NeedDownloadList`) are represented as an explicit environment of
functions so that every run of the embedded code is a pure computation.
-/

namespace Lux

/-- `youtube.Format` (the fields read by the extractor): format tag, mime
type, quality label, audio channel count and content length. -/
structure Format where
  itagNo : Int
  mimeType : String
  qualityLabel : String
  audioChannels : Int
  contentLength : Int
deriving DecidableEq, Repr

/-- `extractors.Part`: one fetchable byte stream (URL, size, extension). -/
structure Part where
  url : String
  size : Int
  ext : String
deriving DecidableEq, Repr

/-- `extractors.Stream`: one downloadable unit; `parts` ordered, primary
part first. -/
structure Stream where
  id : String
  parts : List Part
  quality : String
  ext : String
  needMux : Bool
deriving DecidableEq, Repr

/-- `youtube.Video` (the fields read by the extractor). -/
structure Video where
  title : String
  formats : List Format
deriving DecidableEq, Repr

/-- `extractors.Data`: per-resource extraction result.  The Go `map[string]
*Stream` is modelled as an association list with unique keys (`vtype`
stands for the Go field `Type`). -/
structure Data where
  site : String
  title : String
  vtype : String
  streams : List (String × Stream)
  url : String
  err : Option String
deriving DecidableEq, Repr

/-- Modelled from the spec: `extractors.EmptyData(url, err)` — the
failure-shaped `ExtractionResult`, "an error marker carrying the source URL
and the failure cause, structurally the same shape as a success result"
(the `extractors` package is outside the given source tree). -/
def EmptyData (url : String) (e : String) : Data :=
  { site := "", title := "", vtype := "", streams := [], url := url, err := some e }

/-- Environment of external collaborators used during one video's
resolution: `getStreamURL` is `youtube.Client.GetStreamURL`, `probeSize` is
`request.Size` (failure tolerated, modelled as `none`), and `sortKey` is
the ranking key behind the third-party `FormatList.Sort` total ordering
("apply the upstream format list's total ordering and take the first"). -/
structure Env where
  getStreamURL : Video → Format → Except String String
  probeSize : String → Option Int
  sortKey : Format → Int

/-- An ASCII word character, `\w` of the Go regexp `(\w+)/(\w+);`. -/
def isWordChar (c : Char) : Bool :=
  c.isAlpha || c.isDigit || c = '_'

/-- Split a character list into its maximal leading run of word characters
and the rest (the `\w+` step of the regexp match). -/
def takeWord : List Char → List Char × List Char
  | [] => ([], [])
  | c :: rest =>
    if isWordChar c then
      let p := takeWord rest
      (c :: p.1, p.2)
    else ([], c :: rest)

/-- Match `(\w+)/(\w+);` anchored at the head of the list, returning the
two capture groups. -/
def matchAt (cs : List Char) : Option (List Char × List Char) :=
  if (takeWord cs).1.isEmpty then none
  else
    match (takeWord cs).2 with
    | '/' :: r2 =>
      if (takeWord r2).1.isEmpty then none
      else
        match (takeWord r2).2 with
        | ';' :: _ => some ((takeWord cs).1, (takeWord r2).1)
        | _ => none
    | _ => none

/-- Leftmost match of `(\w+)/(\w+);` (Go regexp semantics of
`utils.MatchOneOf`, which is outside the given source tree; modelled from
the spec's pattern description). -/
def findMatch : List Char → Option (List Char × List Char)
  | [] => none
  | c :: rest =>
    match matchAt (c :: rest) with
    | some p => some p
    | none => findMatch rest

/-- `getStreamExt`: `video/webm; codecs="vp8.0, vorbis"` → `webm`; no
match → `""`. -/
def getStreamExt (streamType : String) : String :=
  match findMatch streamType.data with
  | some p => String.mk p.2
  | none => ""

/-- Substring containment, `strings.Contains` of the third-party
`FormatList.Type` filter. -/
def containsSubstr (s pat : String) : Bool :=
  decide (pat.data <:+: s.data)

/-- Third-party `FormatList.Type`: keep the formats whose mime type
contains `value`. -/
def formatsType (l : List Format) (value : String) : List Format :=
  l.filter (fun f => containsSubstr f.mimeType value)

/-- Insert into a list sorted by `key` (ascending). -/
def insertByKey (key : Format → Int) (f : Format) : List Format → List Format
  | [] => [f]
  | g :: rest =>
    if key f ≤ key g then f :: g :: rest else g :: insertByKey key f rest

/-- Modelled from the spec: the third-party `FormatList.Sort` total
ordering ("encapsulates bitrate/quality ranking"), represented as a stable
sort by the abstract ranking key `key`. -/
def sortByKey (key : Format → Int) : List Format → List Format
  | [] => []
  | f :: rest => insertByKey key f (sortByKey key rest)

/-- `getVideoAudio`: filter the video's formats by the container extension
and by `"audio"`, fail if nothing is left, otherwise sort and take the
first.  (The source checks emptiness before sorting; sorting preserves
emptiness, so matching on the sorted list is the same test.) -/
def getVideoAudio (key : Format → Int) (formats : List Format) (mimeType : String) :
    Except String Format :=
  let audioFormats := formatsType (formatsType formats mimeType) "audio"
  match sortByKey key audioFormats with
  | [] => Except.error "no audio format found after filtering"
  | f :: _ => Except.ok f

/-- `genPartByFormat`: derive the extension, resolve the stream URL
(failure aborts), and resolve the size (`f.ContentLength`, else a
best-effort probe that yields 0 on failure). -/
def genPartByFormat (env : Env) (video : Video) (f : Format) : Except String Part :=
  let ext := getStreamExt f.mimeType
  match env.getStreamURL video f with
  | Except.error e => Except.error e
  | Except.ok u =>
    let size := if f.contentLength = 0 then (env.probeSize u).getD 0 else f.contentLength
    Except.ok { url := u, size := size, ext := ext }

/-- The audio `Part` for container extension `e` of one video: the sorted
best matching audio-only format, resolved into a part.  This is exactly
what the cache-miss branch of `youtubeDownload` computes. -/
def audioPartFor (env : Env) (video : Video) (e : String) : Except String Part :=
  match getVideoAudio env.sortKey video.formats e with
  | Except.error err => Except.error err
  | Except.ok a => genPartByFormat env video a

/-- Lookup in an association list keyed by strings (`audioCache`). -/
def lookupCache : List (String × Part) → String → Option Part
  | [], _ => none
  | p :: c, k => if p.1 = k then some p.2 else lookupCache c k

/-- Lookup in the stream map (Go `streams[itag]` read). -/
def lookupStream : List (String × Stream) → String → Option Stream
  | [], _ => none
  | p :: m, k => if p.1 = k then some p.2 else lookupStream m k

/-- Go map assignment `streams[itag] = stream`: overwrite the existing
entry for the key, else append a new one. -/
def mapInsert (m : List (String × Stream)) (k : String) (v : Stream) :
    List (String × Stream) :=
  if m.any (fun p => decide (p.1 = k)) then
    m.map (fun p => if p.1 = k then (k, v) else p)
  else m ++ [(k, v)]

/-- Number of entries of the stream map carrying key `k`. -/
def countKey (m : List (String × Stream)) (k : String) : Nat :=
  (m.filter (fun p => decide (p.1 = k))).length

/-- The human-readable quality description: `QualityLabel + " " + MimeType`
when the label is non-empty, else the mime type alone. -/
def qualityOf (f : Format) : String :=
  if f.qualityLabel = "" then f.mimeType else f.qualityLabel ++ " " ++ f.mimeType

/-- The stream built for format `f` before audio handling: one primary
part, `NeedMux` set unconditionally to `true` as in the source. -/
def baseStream (f : Format) (part : Part) : Stream :=
  { id := toString f.itagNo, parts := [part], quality := qualityOf f,
    ext := part.ext, needMux := true }

/-- Append the companion audio part (`stream.Parts = append(stream.Parts,
audioPart)`). -/
def withAudio (s : Stream) (audioPart : Part) : Stream :=
  { s with parts := s.parts ++ [audioPart] }

/-- State of the `youtubeDownload` loop: the stream map and the per-video
audio cache.  `audioResolved` is instrumentation only: it records, in
order, every container extension for which the cache missed and an audio
lookup plus URL resolution was started; nothing in the algorithm ever
reads it. -/
structure ResolveState where
  streams : List (String × Stream)
  audioCache : List (String × Part)
  audioResolved : List String
deriving DecidableEq, Repr

/-- One iteration of the `youtubeDownload` loop over `video.Formats`:
build the part and stream for `f`; for a video-only format (zero audio
channels) attach the cached audio part, resolving and caching it on a
miss.  Returns the new state, plus the error that aborts the whole video
when one occurs. -/
def processFormat (env : Env) (video : Video) (st : ResolveState) (f : Format) :
    ResolveState × Option String :=
  match genPartByFormat env video f with
  | Except.error e => (st, some e)
  | Except.ok part =>
    if f.audioChannels = 0 then
      match lookupCache st.audioCache part.ext with
      | some audioPart =>
        let s2 := withAudio (baseStream f part) audioPart
        ({ st with streams := mapInsert st.streams (toString f.itagNo) s2 }, none)
      | none =>
        match getVideoAudio env.sortKey video.formats part.ext with
        | Except.error e =>
          ({ st with audioResolved := st.audioResolved ++ [part.ext] }, some e)
        | Except.ok audio =>
          match genPartByFormat env video audio with
          | Except.error e =>
            ({ st with audioResolved := st.audioResolved ++ [part.ext] }, some e)
          | Except.ok audioPart =>
            let s2 := withAudio (baseStream f part) audioPart
            ({ streams := mapInsert st.streams (toString f.itagNo) s2,
               audioCache := st.audioCache ++ [(part.ext, audioPart)],
               audioResolved := st.audioResolved ++ [part.ext] }, none)
    else
      let s1 := baseStream f part
      ({ st with streams := mapInsert st.streams (toString f.itagNo) s1 }, none)

/-- The `youtubeDownload` loop over the remaining formats, aborting at the
first error. -/
def resolveFormats (env : Env) (video : Video) :
    List Format → ResolveState → ResolveState × Option String
  | [], st => (st, none)
  | f :: rest, st =>
    match processFormat env video st f with
    | (st1, some e) => (st1, some e)
    | (st1, none) => resolveFormats env video rest st1

/-- Initial loop state: empty stream map, empty audio cache. -/
def initState : ResolveState :=
  { streams := [], audioCache := [], audioResolved := [] }

/-- Run the whole resolution pass of one video, exposing the final loop
state (including the instrumentation) next to the possible error. -/
def resolveAudit (env : Env) (video : Video) : ResolveState × Option String :=
  resolveFormats env video video.formats initState

/-- `youtubeDownload`: resolve all formats of one video; on any error
return the failure-shaped `EmptyData url err`, otherwise the populated
`Data`. -/
def youtubeDownload (env : Env) (url : String) (video : Video) : Data :=
  match resolveAudit env video with
  | (_, some e) => EmptyData url e
  | (st, none) =>
    { site := "YouTube youtube.com", title := video.title, vtype := "video",
      streams := st.streams, url := url, err := none }

/-- The stream that `youtubeDownload` builds for one format `f`, written
as a pure function of `f` (the loop's cache makes no difference: a cache
hit returns the very part a miss would recompute). -/
def expectedStream (env : Env) (video : Video) (f : Format) : Except String Stream :=
  match genPartByFormat env video f with
  | Except.error e => Except.error e
  | Except.ok part =>
    if f.audioChannels = 0 then
      match audioPartFor env video part.ext with
      | Except.error e => Except.error e
      | Except.ok audioPart => Except.ok (withAudio (baseStream f part) audioPart)
    else Except.ok (baseStream f part)

/-- The last format of the list whose tag renders to the map key `k`
(Go map assignment lets later formats overwrite earlier ones). -/
def lastWithTag (formats : List Format) (k : String) : Option Format :=
  (formats.filter (fun f => decide (toString f.itagNo = k))).getLast?

/-- A playlist entry, opaque to the core (only handed to the entry
resolver). -/
structure PlaylistEntry where
  entryId : String
deriving DecidableEq, Repr

/-- The extractor options read by `Extract`. -/
structure Options where
  playlist : Bool
  items : String
  itemStart : Int
  itemEnd : Int
  threadNumber : Int

/-- Environment of the batch path: `GetVideo`, `GetPlaylist`,
`VideoFromPlaylistEntry` of the client, and `utils.NeedDownloadList` (the
spec's selection-range expander collaborator, outside the given source
tree) producing the 1-based indices to download. -/
structure BatchEnv where
  getVideo : String → Except String Video
  getPlaylist : String → Except String (List PlaylistEntry)
  videoFromEntry : PlaylistEntry → Except String Video
  needDownloadList : String → Int → Int → Nat → List Nat

/-- One playlist task body: resolve the entry to a video and run
`youtubeDownload`; on entry-resolution failure write nothing (`none`). -/
def extractOneEntry (benv : BatchEnv) (env : Env) (url : String)
    (entry : PlaylistEntry) : Option Data :=
  match benv.videoFromEntry entry with
  | Except.error _ => none
  | Except.ok video => some (youtubeDownload env url video)

/-- The selected playlist entries in original playlist order, each with
the output slot it owns: the Go loop keeps the entries whose 1-based
index is contained in `needDownloadItems` and numbers them with
`dataIndex` 0, 1, 2, …. -/
def selectedPairs (entries : List PlaylistEntry) (items : List Nat) :
    List (Nat × PlaylistEntry) :=
  entries.enum.filter (fun p => items.contains (p.1 + 1))

/-- The positional writes the dispatched tasks perform: task `i` writes
the result for the `i`-th selected entry into slot `i`. -/
def batchWrites (g : PlaylistEntry → Option Data) (entries : List PlaylistEntry)
    (items : List Nat) : List (Nat × Option Data) :=
  (selectedPairs entries items).enum.map (fun q => (q.1, g q.2.2))

/-- Execute a completion schedule: perform the slot writes in the given
order (each task owns its slot, so the order is irrelevant — proved
below). -/
def runTasks {α : Type} (writes : List (Nat × α)) (init : List α) : List α :=
  writes.foldl (fun acc w => acc.set w.1 w.2) init

/-- Modelled from the spec: the batch fan-out of `Extract`
(`utils.WaitGroupPool` is outside the given source tree) — "allocate an
output sequence sized to `len(selectedIndices)`", dispatch one task per
selected entry bound to its slot, join, return the sequence.  The tasks
are executed here in dispatch order; independence from the completion
order is one of the theorems below. -/
def extractBatch (g : PlaylistEntry → Option Data) (entries : List PlaylistEntry)
    (items : List Nat) : List (Option Data) :=
  runTasks (batchWrites g entries items) (List.replicate items.length none)

/-- `Extract`: single-URL path returns one resolved `Data` (or propagates
the `GetVideo` error); playlist path resolves the playlist, expands the
selection and runs the batch. -/
def Extract (benv : BatchEnv) (env : Env) (url : String) (opt : Options) :
    Except String (List (Option Data)) :=
  if opt.playlist = false then
    match benv.getVideo url with
    | Except.error e => Except.error e
    | Except.ok video => Except.ok [some (youtubeDownload env url video)]
  else
    match benv.getPlaylist url with
    | Except.error e => Except.error e
    | Except.ok entries =>
      Except.ok (extractBatch (extractOneEntry benv env url) entries
        (benv.needDownloadList opt.items opt.itemStart opt.itemEnd entries.length))

/-- Every cached audio part is exactly the audio part `audioPartFor`
recomputes for its extension. -/
def CacheOK (env : Env) (video : Video) (cache : List (String × Part)) : Prop :=
  ∀ e p, lookupCache cache e = some p → audioPartFor env video e = Except.ok p

/-- Invariant of the `youtubeDownload` loop state: the cache is correct,
no extension was audio-resolved twice, every resolved extension is
cached, every stream of the map has `NeedMux = true`, and the map keys
are distinct. -/
def Inv (env : Env) (video : Video) (st : ResolveState) : Prop :=
  CacheOK env video st.audioCache ∧
  st.audioResolved.Nodup ∧
  (∀ e ∈ st.audioResolved, (lookupCache st.audioCache e).isSome = true) ∧
  (∀ pr ∈ st.streams, pr.2.needMux = true) ∧
  (st.streams.map Prod.fst).Nodup

/-- Shape demanded of the stream built for format `f`: a video-only format
gets exactly two parts, primary first and the extension-matched audio part
second; any other format gets exactly the primary part. -/
def streamShapeOK (env : Env) (video : Video) (f : Format) (os : Option Stream) : Prop :=
  ∃ s, os = some s ∧
    (if f.audioChannels = 0 then
      s.parts.length = 2 ∧ s.parts.head? = (genPartByFormat env video f).toOption ∧
        s.parts[1]? = (audioPartFor env video s.ext).toOption
    else
      s.parts.length = 1 ∧ s.parts.head? = (genPartByFormat env video f).toOption)

/-- Test environment: URL resolution always succeeds, size probes fail
(tolerated), trivial ranking key. -/
def envOkay : Env :=
  { getStreamURL := fun _ _ => Except.ok "http://sig.example/u",
    probeSize := fun _ => none,
    sortKey := fun _ => 0 }

/-- Test environment whose URL resolution always fails. -/
def envSignFail : Env :=
  { getStreamURL := fun _ _ => Except.error "sign failed",
    probeSize := fun _ => none,
    sortKey := fun _ => 0 }

/-- A muxed format: two audio channels. -/
def fmtAV : Format :=
  { itagNo := 18, mimeType := "video/mp4; codecs=x", qualityLabel := "",
    audioChannels := 2, contentLength := 11 }

/-- A second muxed format carrying the same tag `18`. -/
def fmtAVdup : Format :=
  { itagNo := 18, mimeType := "video/mp4; codecs=y", qualityLabel := "",
    audioChannels := 2, contentLength := 12 }

/-- A video-only format: zero audio channels. -/
def fmtVideoOnly : Format :=
  { itagNo := 137, mimeType := "video/webm; codecs=a", qualityLabel := "1080p",
    audioChannels := 0, contentLength := 5 }

/-- An audio-only format sharing the `webm` extension. -/
def fmtAudioOnly : Format :=
  { itagNo := 251, mimeType := "audio/webm; codecs=b", qualityLabel := "",
    audioChannels := 2, contentLength := 7 }

/-- A video with one muxed format. -/
def vidMuxed : Video := { title := "muxed", formats := [fmtAV] }

/-- A video with a video-only format and its matching audio format. -/
def vidPair : Video := { title := "pair", formats := [fmtVideoOnly, fmtAudioOnly] }

/-- A video with a video-only format and no matching audio format. -/
def vidNoAudio : Video := { title := "orphan", formats := [fmtVideoOnly] }

/-- A video whose two formats share the tag `18`. -/
def vidDup : Video := { title := "dup", formats := [fmtAV, fmtAVdup] }

/-- The stream that `vidMuxed` resolves to under `envOkay`. -/
def streamAV : Stream :=
  { id := "18", parts := [{ url := "http://sig.example/u", size := 11, ext := "mp4" }],
    quality := "video/mp4; codecs=x", ext := "mp4", needMux := true }

/-- A seven-entry playlist. -/
def entriesSeven : List PlaylistEntry :=
  [{ entryId := "e1" }, { entryId := "e2" }, { entryId := "e3" }, { entryId := "e4" },
    { entryId := "e5" }, { entryId := "e6" }, { entryId := "e7" }]

/-- The selected 1-based indices 2, 5, 7. -/
def itemsSel : List Nat := [2, 5, 7]

/-- A per-entry extraction stub producing a distinct result per entry. -/
def gBatch : PlaylistEntry → Option Data :=
  fun e => some (EmptyData e.entryId "stub")

/-- Like `gBatch` but entry `e2` fails its entry-resolution step. -/
def gBatchFail : PlaylistEntry → Option Data :=
  fun e => if e.entryId = "e2" then none else gBatch e

/-- A batch environment whose video fetch fails. -/
def benvFail : BatchEnv :=
  { getVideo := fun _ => Except.error "video fetch failed",
    getPlaylist := fun _ => Except.error "playlist fetch failed",
    videoFromEntry := fun _ => Except.error "entry failed",
    needDownloadList := fun _ _ _ _ => [] }

/-- A batch environment that resolves its video successfully. -/
def benvOkVideo : BatchEnv :=
  { getVideo := fun _ => Except.ok vidMuxed,
    getPlaylist := fun _ => Except.error "playlist fetch failed",
    videoFromEntry := fun _ => Except.error "entry failed",
    needDownloadList := fun _ _ _ _ => [] }

/-- A batch environment with a good playlist whose every entry fails to
resolve. -/
def benvEntriesFail : BatchEnv :=
  { getVideo := fun _ => Except.error "video fetch failed",
    getPlaylist := fun _ => Except.ok entriesSeven,
    videoFromEntry := fun _ => Except.error "entry failed",
    needDownloadList := fun _ _ _ _ => itemsSel }

/-- Options of a single-URL run. -/
def optSingle : Options :=
  { playlist := false, items := "", itemStart := 0, itemEnd := 0, threadNumber := 2 }

/-- Options of a playlist run. -/
def optList : Options :=
  { playlist := true, items := "", itemStart := 0, itemEnd := 0, threadNumber := 2 }

/-! ### Lemmas about the mime-type extension match -/

lemma takeWord_split : ∀ cs : List Char, cs = (takeWord cs).1 ++ (takeWord cs).2
  | [] => rfl
  | c :: rest => by
    by_cases h : isWordChar c
    · simp only [takeWord, h, if_true, List.cons_append, List.cons.injEq, true_and]
      exact takeWord_split rest
    · simp [takeWord, h]

lemma takeWord_word_prefix :
    ∀ (t : List Char) (c0 : Char) (r : List Char),
      (∀ c ∈ t, isWordChar c = true) → isWordChar c0 = false →
      takeWord (t ++ c0 :: r) = (t, c0 :: r)
  | [], c0, r, _, hc0 => by simp [takeWord, hc0]
  | c :: t, c0, r, ht, hc0 => by
    have hc : isWordChar c = true := ht c (List.mem_cons_self c t)
    have ih := takeWord_word_prefix t c0 r (fun x hx => ht x (List.mem_cons_of_mem c hx)) hc0
    simp [takeWord, hc, ih]

lemma matchAt_word_prefix (t sub r : List Char)
    (ht : ∀ c ∈ t, isWordChar c = true) (htne : t ≠ [])
    (hsub : ∀ c ∈ sub, isWordChar c = true) (hsubne : sub ≠ []) :
    matchAt (t ++ '/' :: (sub ++ ';' :: r)) = some (t, sub) := by
  have h1 : takeWord (t ++ '/' :: (sub ++ ';' :: r)) = (t, '/' :: (sub ++ ';' :: r)) :=
    takeWord_word_prefix t '/' (sub ++ ';' :: r) ht (by decide)
  have h2 : takeWord (sub ++ ';' :: r) = (sub, ';' :: r) :=
    takeWord_word_prefix sub ';' r hsub (by decide)
  simp [matchAt, h1, h2, List.isEmpty_iff, htne, hsubne]

lemma findMatch_word_prefix (t sub r : List Char)
    (ht : ∀ c ∈ t, isWordChar c = true) (htne : t ≠ [])
    (hsub : ∀ c ∈ sub, isWordChar c = true) (hsubne : sub ≠ []) :
    findMatch (t ++ '/' :: (sub ++ ';' :: r)) = some (t, sub) := by
  have hm := matchAt_word_prefix t sub r ht htne hsub hsubne
  cases t with
  | nil => exact absurd rfl htne
  | cons c t' =>
    simp only [List.cons_append] at hm ⊢
    simp only [findMatch]
    rw [hm]

lemma matchAt_semicolon {cs : List Char} {p : List Char × List Char}
    (h : matchAt cs = some p) : ';' ∈ cs := by
  have hsplit := takeWord_split cs
  unfold matchAt at h
  split_ifs at h
  split at h
  · next r2 heq =>
    split_ifs at h
    split at h
    · next tail heq2 =>
      have hsplit2 := takeWord_split r2
      rw [heq2] at hsplit2
      rw [heq] at hsplit
      rw [hsplit, hsplit2]
      simp
    · exact absurd h (by simp)
  · exact absurd h (by simp)

lemma findMatch_semicolon :
    ∀ {cs : List Char} {p : List Char × List Char}, findMatch cs = some p → ';' ∈ cs := by
  intro cs
  induction cs with
  | nil => intro p h; simp [findMatch] at h
  | cons c rest ih =>
    intro p h
    unfold findMatch at h
    cases hm : matchAt (c :: rest) with
    | some q => exact matchAt_semicolon hm
    | none =>
      rw [hm] at h
      exact List.mem_cons_of_mem c (ih h)

/-! ### Lemmas about the association-list maps -/

lemma lookupStream_map_other (m : List (String × Stream)) (k : String) (v : Stream)
    (k2 : String) (hne : k2 ≠ k) :
    lookupStream (m.map (fun p => if p.1 = k then (k, v) else p)) k2 =
      lookupStream m k2 := by
  induction m with
  | nil => rfl
  | cons q m ih =>
    by_cases hq : q.1 = k
    · have h1 : ¬ (k = k2) := fun h => hne h.symm
      have h2 : ¬ (q.1 = k2) := by rw [hq]; exact h1
      simp [lookupStream, hq, h1, h2, ih]
    · by_cases hq2 : q.1 = k2
      · simp [lookupStream, hq, hq2, hne]
      · simp [lookupStream, hq, hq2, ih]

lemma lookupStream_append_single (m : List (String × Stream)) (k : String) (v : Stream)
    (k2 : String) (hall : ∀ q ∈ m, ¬ (q.1 = k)) :
    lookupStream (m ++ [(k, v)]) k2 = if k2 = k then some v else lookupStream m k2 := by
  induction m with
  | nil =>
    by_cases hk : k2 = k
    · subst hk
      simp [lookupStream]
    · simp only [List.nil_append, lookupStream]
      rw [if_neg (fun h => hk (h.symm : k2 = k)), if_neg hk]
  | cons q m ih =>
    have hqk : ¬ (q.1 = k) := hall q (List.mem_cons_self q m)
    have ih' := ih (fun x hx => hall x (List.mem_cons_of_mem q hx))
    by_cases hq2 : q.1 = k2
    · have hk : ¬ (k2 = k) := by rw [← hq2]; exact hqk
      simp [lookupStream, hq2, hk]
    · have hstep : lookupStream ((q :: m) ++ [(k, v)]) k2 =
          lookupStream (m ++ [(k, v)]) k2 := by
        simp only [List.cons_append, lookupStream, hq2, if_false]
        rfl
      rw [hstep, ih']
      by_cases hk : k2 = k
      · simp [hk]
      · simp [hk, lookupStream, hq2]

lemma lookupStream_mapInsert (m : List (String × Stream)) (k : String) (v : Stream)
    (k2 : String) :
    lookupStream (mapInsert m k v) k2 = if k2 = k then some v else lookupStream m k2 := by
  unfold mapInsert
  by_cases hany : m.any (fun p => decide (p.1 = k)) = true
  · simp only [hany, if_true]
    by_cases hk : k2 = k
    · subst hk
      induction m with
      | nil => simp at hany
      | cons q m ih =>
        by_cases hq : q.1 = k2
        · simp [lookupStream, hq]
        · have hany' : m.any (fun p => decide (p.1 = k2)) = true := by
            rcases List.any_eq_true.1 hany with ⟨x, hx, hxk⟩
            rcases List.mem_cons.1 hx with rfl | hxm
            · exact absurd (of_decide_eq_true hxk) hq
            · exact List.any_eq_true.2 ⟨x, hxm, hxk⟩
          simpa [lookupStream, hq] using ih hany'
    · simp only [hk, if_false]
      exact lookupStream_map_other m k v k2 hk
  · simp only [hany, if_false]
    have hall : ∀ q ∈ m, ¬ (q.1 = k) := by
      intro q hq hqk
      exact hany (List.any_eq_true.2 ⟨q, hq, decide_eq_true hqk⟩)
    exact lookupStream_append_single m k v k2 hall

lemma mem_mapInsert {m : List (String × Stream)} {k : String} {v : Stream}
    {pr : String × Stream} (h : pr ∈ mapInsert m k v) : pr = (k, v) ∨ pr ∈ m := by
  unfold mapInsert at h
  split_ifs at h
  · rcases List.mem_map.1 h with ⟨q, hq, hqe⟩
    by_cases hqk : q.1 = k
    · simp only [hqk, if_true] at hqe
      exact Or.inl hqe.symm
    · simp only [hqk, if_false] at hqe
      exact Or.inr (hqe ▸ hq)
  · rcases List.mem_append.1 h with hm | hs
    · exact Or.inr hm
    · exact Or.inl (List.mem_singleton.1 hs)

lemma keys_mapInsert_nodup {m : List (String × Stream)} (k : String) (v : Stream)
    (hnd : (m.map Prod.fst).Nodup) : ((mapInsert m k v).map Prod.fst).Nodup := by
  unfold mapInsert
  split_ifs with hany
  · have heq : ((m.map (fun p => if p.1 = k then (k, v) else p)).map Prod.fst) =
        m.map Prod.fst := by
      rw [List.map_map]
      apply List.map_congr_left
      intro a _
      by_cases ha : a.1 = k <;> simp [Function.comp, ha]
    rw [heq]
    exact hnd
  · rw [List.map_append, List.nodup_append]
    refine ⟨hnd, by simp, ?_⟩
    intro a ha hb
    simp only [List.map_cons, List.map_nil, List.mem_singleton] at hb
    subst hb
    rcases List.mem_map.1 ha with ⟨q, hq, hqa⟩
    exact hany (List.any_eq_true.2 ⟨q, hq, decide_eq_true hqa⟩)

lemma countKey_eq_one {m : List (String × Stream)} {k : String} {s : Stream}
    (hnd : (m.map Prod.fst).Nodup) (h : lookupStream m k = some s) :
    countKey m k = 1 := by
  induction m with
  | nil => simp [lookupStream] at h
  | cons q m ih =>
    rw [List.map_cons, List.nodup_cons] at hnd
    obtain ⟨hq1, hq2⟩ := hnd
    by_cases hq : q.1 = k
    · have hfil : m.filter (fun p => decide (p.1 = k)) = [] := by
        rw [List.filter_eq_nil_iff]
        intro a ha
        simp only [decide_eq_true_eq]
        intro hak
        have hmem : q.1 ∈ List.map Prod.fst m := by
          rw [hq, ← hak]
          exact List.mem_map.2 ⟨a, ha, rfl⟩
        exact hq1 hmem
      simp [countKey, List.filter_cons, hq, hfil]
    · have h' : lookupStream m k = some s := by
        simpa [lookupStream, hq] using h
      simpa [countKey, List.filter_cons, hq] using ih hq2 h'

lemma lookupCache_append_of_some {c : List (String × Part)} {e : String} {q : Part}
    (h : lookupCache c e = some q) (k : String) (p : Part) :
    lookupCache (c ++ [(k, p)]) e = some q := by
  induction c with
  | nil => simp [lookupCache] at h
  | cons r c ih =>
    simp only [lookupCache] at h
    simp only [List.cons_append, lookupCache]
    by_cases hr : r.1 = e
    · rw [if_pos hr] at h
      rw [if_pos hr]
      exact h
    · rw [if_neg hr] at h
      rw [if_neg hr]
      exact ih h

lemma lookupCache_append_self {c : List (String × Part)} {k : String}
    (h : lookupCache c k = none) (p : Part) :
    lookupCache (c ++ [(k, p)]) k = some p := by
  induction c with
  | nil => simp [lookupCache]
  | cons r c ih =>
    simp only [lookupCache] at h
    simp only [List.cons_append, lookupCache]
    by_cases hr : r.1 = k
    · rw [if_pos hr] at h
      simp at h
    · rw [if_neg hr] at h
      rw [if_neg hr]
      exact ih h

lemma lookupCache_append_other {c : List (String × Part)} {e k : String}
    (hne : e ≠ k) (p : Part) :
    lookupCache (c ++ [(k, p)]) e = lookupCache c e := by
  induction c with
  | nil =>
    simp only [List.nil_append, lookupCache]
    rw [if_neg (fun h => hne (h.symm : e = k))]
  | cons r c ih =>
    simp only [List.cons_append, lookupCache]
    by_cases hr : r.1 = e
    · rw [if_pos hr, if_pos hr]
    · rw [if_neg hr, if_neg hr]
      exact ih

/-! ### Reduction equations for the resolution pass -/

lemma genPart_ext {env : Env} {video : Video} {f : Format} {p : Part}
    (h : genPartByFormat env video f = Except.ok p) :
    p.ext = getStreamExt f.mimeType := by
  unfold genPartByFormat at h
  cases hg : env.getStreamURL video f with
  | error e => rw [hg] at h; simp at h
  | ok u =>
    rw [hg] at h
    simp only [Except.ok.injEq] at h
    rw [← h]

lemma audioPartFor_of_ok {env : Env} {video : Video} {e : String} {audio : Format}
    (hga : getVideoAudio env.sortKey video.formats e = Except.ok audio) :
    audioPartFor env video e = genPartByFormat env video audio := by
  simp [audioPartFor, hga]

lemma audioPartFor_of_err {env : Env} {video : Video} {e : String} {msg : String}
    (hga : getVideoAudio env.sortKey video.formats e = Except.error msg) :
    audioPartFor env video e = Except.error msg := by
  simp [audioPartFor, hga]

lemma expectedStream_of_genPart_err {env : Env} {video : Video} {f : Format} {e : String}
    (hgp : genPartByFormat env video f = Except.error e) :
    expectedStream env video f = Except.error e := by
  simp [expectedStream, hgp]

lemma expectedStream_of_nonzero {env : Env} {video : Video} {f : Format} {part : Part}
    (hgp : genPartByFormat env video f = Except.ok part) (hch : ¬ f.audioChannels = 0) :
    expectedStream env video f = Except.ok (baseStream f part) := by
  simp [expectedStream, hgp, hch]

lemma expectedStream_of_zero_ok {env : Env} {video : Video} {f : Format} {part ap : Part}
    (hgp : genPartByFormat env video f = Except.ok part) (hch : f.audioChannels = 0)
    (hap : audioPartFor env video part.ext = Except.ok ap) :
    expectedStream env video f = Except.ok (withAudio (baseStream f part) ap) := by
  simp [expectedStream, hgp, hch, hap]

lemma expectedStream_of_zero_err {env : Env} {video : Video} {f : Format} {part : Part}
    {e : String}
    (hgp : genPartByFormat env video f = Except.ok part) (hch : f.audioChannels = 0)
    (hap : audioPartFor env video part.ext = Except.error e) :
    expectedStream env video f = Except.error e := by
  simp [expectedStream, hgp, hch, hap]

lemma processFormat_of_genPart_err {env : Env} {video : Video} {st : ResolveState}
    {f : Format} {e : String}
    (hgp : genPartByFormat env video f = Except.error e) :
    processFormat env video st f = (st, some e) := by
  simp [processFormat, hgp]

lemma processFormat_of_nonzero {env : Env} {video : Video} {st : ResolveState}
    {f : Format} {part : Part}
    (hgp : genPartByFormat env video f = Except.ok part) (hch : ¬ f.audioChannels = 0) :
    processFormat env video st f =
      ({ st with streams := mapInsert st.streams (toString f.itagNo) (baseStream f part) },
        none) := by
  simp [processFormat, hgp, hch]

lemma processFormat_of_hit {env : Env} {video : Video} {st : ResolveState}
    {f : Format} {part ap : Part}
    (hgp : genPartByFormat env video f = Except.ok part) (hch : f.audioChannels = 0)
    (hlc : lookupCache st.audioCache part.ext = some ap) :
    processFormat env video st f =
      ({ st with streams := mapInsert st.streams (toString f.itagNo) (withAudio (baseStream f part) ap) },
        none) := by
  simp [processFormat, hgp, hch, hlc]

lemma processFormat_of_miss_noaudio {env : Env} {video : Video} {st : ResolveState}
    {f : Format} {part : Part} {e : String}
    (hgp : genPartByFormat env video f = Except.ok part) (hch : f.audioChannels = 0)
    (hlc : lookupCache st.audioCache part.ext = none)
    (hga : getVideoAudio env.sortKey video.formats part.ext = Except.error e) :
    processFormat env video st f =
      ({ st with audioResolved := st.audioResolved ++ [part.ext] }, some e) := by
  simp [processFormat, hgp, hch, hlc, hga]

lemma processFormat_of_miss_audio_err {env : Env} {video : Video} {st : ResolveState}
    {f : Format} {part : Part} {audio : Format} {e : String}
    (hgp : genPartByFormat env video f = Except.ok part) (hch : f.audioChannels = 0)
    (hlc : lookupCache st.audioCache part.ext = none)
    (hga : getVideoAudio env.sortKey video.formats part.ext = Except.ok audio)
    (hgpa : genPartByFormat env video audio = Except.error e) :
    processFormat env video st f =
      ({ st with audioResolved := st.audioResolved ++ [part.ext] }, some e) := by
  simp [processFormat, hgp, hch, hlc, hga, hgpa]

lemma processFormat_of_miss_ok {env : Env} {video : Video} {st : ResolveState}
    {f : Format} {part : Part} {audio : Format} {ap : Part}
    (hgp : genPartByFormat env video f = Except.ok part) (hch : f.audioChannels = 0)
    (hlc : lookupCache st.audioCache part.ext = none)
    (hga : getVideoAudio env.sortKey video.formats part.ext = Except.ok audio)
    (hgpa : genPartByFormat env video audio = Except.ok ap) :
    processFormat env video st f =
      ({ streams := mapInsert st.streams (toString f.itagNo)
           (withAudio (baseStream f part) ap),
         audioCache := st.audioCache ++ [(part.ext, ap)],
         audioResolved := st.audioResolved ++ [part.ext] }, none) := by
  simp [processFormat, hgp, hch, hlc, hga, hgpa]

/-! ### The loop invariant -/

lemma Inv_initState (env : Env) (video : Video) : Inv env video initState := by
  refine ⟨?_, ?_, ?_, ?_, ?_⟩ <;> simp [CacheOK, initState, lookupCache]

lemma inv_streams_insert {m : List (String × Stream)} {k : String} {v : Stream}
    (hmux : ∀ pr ∈ m, pr.2.needMux = true) (hv : v.needMux = true) :
    ∀ pr ∈ mapInsert m k v, pr.2.needMux = true := by
  intro pr hpr
  rcases mem_mapInsert hpr with rfl | hm
  · exact hv
  · exact hmux pr hm

lemma processFormat_ok {env : Env} {video : Video} {st st1 : ResolveState} {f : Format}
    (hInv : Inv env video st)
    (h : processFormat env video st f = (st1, none)) :
    ∃ s, expectedStream env video f = Except.ok s ∧
      st1.streams = mapInsert st.streams (toString f.itagNo) s ∧
      Inv env video st1 := by
  obtain ⟨hcache, hnd, hres, hmux, hkeys⟩ := hInv
  cases hgp : genPartByFormat env video f with
  | error e =>
    rw [processFormat_of_genPart_err hgp] at h
    simp at h
  | ok part =>
    by_cases hch : f.audioChannels = 0
    · cases hlc : lookupCache st.audioCache part.ext with
      | some ap =>
        rw [processFormat_of_hit hgp hch hlc] at h
        obtain ⟨rfl, -⟩ := Prod.mk.injEq _ _ _ _ |>.mp h.symm
        have hap : audioPartFor env video part.ext = Except.ok ap := hcache _ _ hlc
        refine ⟨withAudio (baseStream f part) ap,
          expectedStream_of_zero_ok hgp hch hap, rfl, ?_⟩
        refine ⟨hcache, hnd, hres, ?_, ?_⟩
        · apply inv_streams_insert hmux
          rfl
        · exact keys_mapInsert_nodup _ _ hkeys
      | none =>
        cases hga : getVideoAudio env.sortKey video.formats part.ext with
        | error e =>
          rw [processFormat_of_miss_noaudio hgp hch hlc hga] at h
          simp at h
        | ok audio =>
          cases hgpa : genPartByFormat env video audio with
          | error e =>
            rw [processFormat_of_miss_audio_err hgp hch hlc hga hgpa] at h
            simp at h
          | ok ap =>
            rw [processFormat_of_miss_ok hgp hch hlc hga hgpa] at h
            obtain ⟨rfl, -⟩ := Prod.mk.injEq _ _ _ _ |>.mp h.symm
            have hap : audioPartFor env video part.ext = Except.ok ap := by
              rw [audioPartFor_of_ok hga]
              exact hgpa
            refine ⟨withAudio (baseStream f part) ap,
              expectedStream_of_zero_ok hgp hch hap, rfl, ?_, ?_, ?_, ?_, ?_⟩
            · intro e2 p2 hl2
              by_cases he2 : e2 = part.ext
              · subst he2
                rw [lookupCache_append_self hlc] at hl2
                cases hl2
                exact hap
              · rw [lookupCache_append_other he2] at hl2
                exact hcache _ _ hl2
            · rw [List.nodup_append]
              refine ⟨hnd, by simp, ?_⟩
              intro a ha hb
              simp only [List.mem_singleton] at hb
              subst hb
              have := hres _ ha
              rw [hlc] at this
              simp at this
            · intro e2 he2
              rcases List.mem_append.1 he2 with hold | hnew
              · have := hres e2 hold
                cases hl2 : lookupCache st.audioCache e2 with
                | none => rw [hl2] at this; simp at this
                | some q =>
                  rw [lookupCache_append_of_some hl2]
                  simp
              · simp only [List.mem_singleton] at hnew
                subst hnew
                rw [lookupCache_append_self hlc]
                simp
            · apply inv_streams_insert hmux
              rfl
            · exact keys_mapInsert_nodup _ _ hkeys
    · rw [processFormat_of_nonzero hgp hch] at h
      obtain ⟨rfl, -⟩ := Prod.mk.injEq _ _ _ _ |>.mp h.symm
      refine ⟨baseStream f part, expectedStream_of_nonzero hgp hch, rfl, ?_⟩
      refine ⟨hcache, hnd, hres, ?_, ?_⟩
      · apply inv_streams_insert hmux
        rfl
      · exact keys_mapInsert_nodup _ _ hkeys

lemma processFormat_err {env : Env} {video : Video} {st st1 : ResolveState} {f : Format}
    {e : String}
    (hInv : Inv env video st)
    (h : processFormat env video st f = (st1, some e)) :
    expectedStream env video f = Except.error e ∧ st1.audioResolved.Nodup := by
  obtain ⟨hcache, hnd, hres, hmux, hkeys⟩ := hInv
  cases hgp : genPartByFormat env video f with
  | error e2 =>
    rw [processFormat_of_genPart_err hgp] at h
    obtain ⟨rfl, he⟩ := Prod.mk.injEq _ _ _ _ |>.mp h.symm
    cases he
    exact ⟨expectedStream_of_genPart_err hgp, hnd⟩
  | ok part =>
    by_cases hch : f.audioChannels = 0
    · cases hlc : lookupCache st.audioCache part.ext with
      | some ap =>
        rw [processFormat_of_hit hgp hch hlc] at h
        exact absurd (congrArg Prod.snd h) (by simp)
      | none =>
        have hext : part.ext ∉ st.audioResolved := by
          intro hmem
          have := hres _ hmem
          rw [hlc] at this
          simp at this
        have hnd2 : (st.audioResolved ++ [part.ext]).Nodup := by
          rw [List.nodup_append]
          refine ⟨hnd, by simp, ?_⟩
          intro a ha hb
          simp only [List.mem_singleton] at hb
          subst hb
          exact hext ha
        cases hga : getVideoAudio env.sortKey video.formats part.ext with
        | error e2 =>
          rw [processFormat_of_miss_noaudio hgp hch hlc hga] at h
          obtain ⟨rfl, he⟩ := Prod.mk.injEq _ _ _ _ |>.mp h.symm
          cases he
          refine ⟨expectedStream_of_zero_err hgp hch (audioPartFor_of_err hga), hnd2⟩
        | ok audio =>
          cases hgpa : genPartByFormat env video audio with
          | error e2 =>
            rw [processFormat_of_miss_audio_err hgp hch hlc hga hgpa] at h
            obtain ⟨rfl, he⟩ := Prod.mk.injEq _ _ _ _ |>.mp h.symm
            cases he
            have hap : audioPartFor env video part.ext = Except.error e := by
              rw [audioPartFor_of_ok hga]
              exact hgpa
            exact ⟨expectedStream_of_zero_err hgp hch hap, hnd2⟩
          | ok ap =>
            rw [processFormat_of_miss_ok hgp hch hlc hga hgpa] at h
            exact absurd (congrArg Prod.snd h) (by simp)
    · rw [processFormat_of_nonzero hgp hch] at h
      exact absurd (congrArg Prod.snd h) (by simp)

lemma processFormat_of_expected_ok {env : Env} {video : Video} {st : ResolveState}
    {f : Format} {s : Stream}
    (hInv : Inv env video st)
    (hs : expectedStream env video f = Except.ok s) :
    (processFormat env video st f).2 = none := by
  cases hpf : processFormat env video st f with
  | mk st1 oe =>
    cases oe with
    | none => rfl
    | some e =>
      obtain ⟨herr, -⟩ := processFormat_err hInv hpf
      rw [hs] at herr
      cases herr

/-! ### The resolution loop -/

lemma resolveFormats_cons (env : Env) (video : Video) (f : Format) (rest : List Format)
    (st : ResolveState) :
    resolveFormats env video (f :: rest) st =
      match processFormat env video st f with
      | (st1, some e) => (st1, some e)
      | (st1, none) => resolveFormats env video rest st1 := rfl

lemma getLast?_cons_eq {α : Type} (a : α) (l : List α) :
    (a :: l).getLast? =
      match l.getLast? with
      | some x => some x
      | none => some a := by
  cases hl : l.getLast? with
  | none =>
    rw [List.getLast?_eq_none_iff.1 hl]
    simp
  | some x =>
    cases l with
    | nil => simp at hl
    | cons b m =>
      rw [List.getLast?_cons_cons, hl]

lemma lastWithTag_cons (f : Format) (rest : List Format) (k : String) :
    lastWithTag (f :: rest) k =
      match lastWithTag rest k with
      | some g => some g
      | none => if toString f.itagNo = k then some f else none := by
  unfold lastWithTag
  rw [List.filter_cons]
  by_cases hf : toString f.itagNo = k
  · rw [if_pos (by simp [hf])]
    rw [getLast?_cons_eq]
    cases (rest.filter fun g => decide (toString g.itagNo = k)).getLast? with
    | none => simp [hf]
    | some x => simp
  · rw [if_neg (by simp [hf])]
    cases (rest.filter fun g => decide (toString g.itagNo = k)).getLast? with
    | none => simp [hf]
    | some x => simp

lemma lastWithTag_self {formats : List Format} {f : Format}
    (hnd : (formats.map (fun g => toString g.itagNo)).Nodup)
    (hf : f ∈ formats) :
    lastWithTag formats (toString f.itagNo) = some f := by
  induction formats with
  | nil => simp at hf
  | cons g rest ih =>
    rw [List.map_cons, List.nodup_cons] at hnd
    obtain ⟨hg1, hg2⟩ := hnd
    rcases List.mem_cons.1 hf with rfl | hfr
    · unfold lastWithTag
      rw [List.filter_cons, if_pos (by simp)]
      have hfil : rest.filter (fun x => decide (toString x.itagNo = toString f.itagNo)) = [] := by
        rw [List.filter_eq_nil_iff]
        intro a ha
        simp only [decide_eq_true_eq]
        intro hak
        have hmem : toString f.itagNo ∈ rest.map (fun x => toString x.itagNo) := by
          rw [← hak]
          exact List.mem_map.2 ⟨a, ha, rfl⟩
        exact hg1 hmem
      rw [hfil]
      simp
    · rw [lastWithTag_cons, ih hg2 hfr]

lemma lastWithTag_cons_of_some {rest : List Format} {k : String} {g : Format}
    (f : Format) (h : lastWithTag rest k = some g) :
    lastWithTag (f :: rest) k = some g := by
  rw [lastWithTag_cons, h]

lemma lastWithTag_cons_of_none {rest : List Format} {k : String}
    (f : Format) (h : lastWithTag rest k = none) :
    lastWithTag (f :: rest) k = if toString f.itagNo = k then some f else none := by
  rw [lastWithTag_cons, h]

lemma resolveFormats_ok_spec (env : Env) (video : Video) :
    ∀ (rest : List Format) (st st' : ResolveState),
      Inv env video st →
      resolveFormats env video rest st = (st', none) →
      Inv env video st' ∧
      (∀ f ∈ rest, ∃ s, expectedStream env video f = Except.ok s) ∧
      (∀ k g, lastWithTag rest k = some g →
        lookupStream st'.streams k = (expectedStream env video g).toOption) ∧
      (∀ k, lastWithTag rest k = none →
        lookupStream st'.streams k = lookupStream st.streams k) := by
  intro rest
  induction rest with
  | nil =>
    intro st st' hInv h
    simp only [resolveFormats] at h
    have hst : st = st' := congrArg Prod.fst h
    subst hst
    refine ⟨hInv, by simp, ?_, ?_⟩
    · intro k g hg
      simp [lastWithTag] at hg
    · intro k _
      rfl
  | cons f rest ih =>
    intro st st' hInv h
    rw [resolveFormats_cons] at h
    rcases hpf : processFormat env video st f with ⟨st1, oe⟩
    rw [hpf] at h
    cases oe with
    | some e =>
      exact absurd (congrArg Prod.snd h) (by simp)
    | none =>
      have h' : resolveFormats env video rest st1 = (st', none) := h
      obtain ⟨s, hs, hstr, hInv1⟩ := processFormat_ok hInv hpf
      obtain ⟨hInv2, hall, hsome, hnone⟩ := ih st1 st' hInv1 h'
      refine ⟨hInv2, ?_, ?_, ?_⟩
      · intro g hg
        rcases List.mem_cons.1 hg with rfl | hgr
        · exact ⟨s, hs⟩
        · exact hall g hgr
      · intro k g hg
        cases hLt : lastWithTag rest k with
        | some g2 =>
          rw [lastWithTag_cons_of_some f hLt] at hg
          injection hg with hg2
          rw [← hg2]
          exact hsome k g2 hLt
        | none =>
          rw [lastWithTag_cons_of_none f hLt] at hg
          by_cases hk : toString f.itagNo = k
          · rw [if_pos hk] at hg
            injection hg with hg2
            rw [← hg2, hnone k hLt, hstr, lookupStream_mapInsert, if_pos hk.symm, hs]
            rfl
          · rw [if_neg hk] at hg
            cases hg
      · intro k hk
        cases hLt : lastWithTag rest k with
        | some g2 =>
          rw [lastWithTag_cons_of_some f hLt] at hk
          cases hk
        | none =>
          rw [lastWithTag_cons_of_none f hLt] at hk
          by_cases hfk : toString f.itagNo = k
          · rw [if_pos hfk] at hk
            cases hk
          · rw [hnone k hLt, hstr, lookupStream_mapInsert,
              if_neg (fun hh => hfk hh.symm)]

lemma resolveFormats_err_spec (env : Env) (video : Video) :
    ∀ (rest : List Format) (st st' : ResolveState) (e : String),
      Inv env video st →
      resolveFormats env video rest st = (st', some e) →
      (∃ f ∈ rest, expectedStream env video f = Except.error e) ∧
      st'.audioResolved.Nodup := by
  intro rest
  induction rest with
  | nil =>
    intro st st' e hInv h
    simp only [resolveFormats] at h
    exact absurd (congrArg Prod.snd h) (by simp)
  | cons f rest ih =>
    intro st st' e hInv h
    rw [resolveFormats_cons] at h
    rcases hpf : processFormat env video st f with ⟨st1, oe⟩
    rw [hpf] at h
    cases oe with
    | some e2 =>
      have hst : st1 = st' := congrArg Prod.fst h
      have he : e2 = e := by
        have := congrArg Prod.snd h
        simpa using this
      subst hst
      subst he
      obtain ⟨herr, hnd1⟩ := processFormat_err hInv hpf
      exact ⟨⟨f, List.mem_cons_self f rest, herr⟩, hnd1⟩
    | none =>
      have h' : resolveFormats env video rest st1 = (st', some e) := h
      obtain ⟨s, hs, hstr, hInv1⟩ := processFormat_ok hInv hpf
      obtain ⟨⟨g, hg, herr⟩, hnd'⟩ := ih st1 st' e hInv1 h'
      exact ⟨⟨g, List.mem_cons_of_mem f hg, herr⟩, hnd'⟩

lemma resolveFormats_total (env : Env) (video : Video) :
    ∀ (rest : List Format) (st : ResolveState),
      Inv env video st →
      (∀ f ∈ rest, ∃ s, expectedStream env video f = Except.ok s) →
      (resolveFormats env video rest st).2 = none := by
  intro rest
  induction rest with
  | nil =>
    intro st _ _
    simp [resolveFormats]
  | cons f rest ih =>
    intro st hInv hall
    rw [resolveFormats_cons]
    rcases hpf : processFormat env video st f with ⟨st1, oe⟩
    obtain ⟨s, hs⟩ := hall f (List.mem_cons_self f rest)
    have hsnd : oe = none := by
      have := processFormat_of_expected_ok hInv hs
      rw [hpf] at this
      exact this
    subst hsnd
    obtain ⟨-, -, -, hInv1⟩ := processFormat_ok hInv hpf
    exact ih st1 hInv1 (fun g hg => hall g (List.mem_cons_of_mem f hg))

lemma resolveFormats_resolved_nodup (env : Env) (video : Video) :
    ∀ (rest : List Format) (st : ResolveState),
      Inv env video st →
      (resolveFormats env video rest st).1.audioResolved.Nodup := by
  intro rest
  induction rest with
  | nil =>
    intro st hInv
    simpa [resolveFormats] using hInv.2.1
  | cons f rest ih =>
    intro st hInv
    rw [resolveFormats_cons]
    rcases hpf : processFormat env video st f with ⟨st1, oe⟩
    cases oe with
    | some e =>
      obtain ⟨-, hnd1⟩ := processFormat_err hInv hpf
      simpa using hnd1
    | none =>
      obtain ⟨-, -, -, hInv1⟩ := processFormat_ok hInv hpf
      simpa using ih st1 hInv1

/-! ### The batch fan-out -/

lemma runTasks_nil {α : Type} (init : List α) : runTasks [] init = init := rfl

lemma runTasks_cons {α : Type} (w : Nat × α) (ws : List (Nat × α)) (init : List α) :
    runTasks (w :: ws) init = runTasks ws (init.set w.1 w.2) := rfl

lemma runTasks_enumFrom {α : Type} :
    ∀ (vs : List α) (k : Nat) (init : List α),
      k + vs.length ≤ init.length →
      runTasks (List.enumFrom k vs) init =
        init.take k ++ vs ++ init.drop (k + vs.length) := by
  intro vs
  induction vs with
  | nil =>
    intro k init _
    simp [runTasks]
  | cons v vs ih =>
    intro k init h
    rw [List.enumFrom_cons, runTasks_cons]
    have hk : k < init.length := by
      simp only [List.length_cons] at h
      omega
    have hlen : k + 1 + vs.length ≤ (init.set k v).length := by
      rw [List.length_set]
      simp only [List.length_cons] at h
      omega
    rw [ih (k + 1) (init.set k v) hlen]
    have hset : init.set k v = init.take k ++ v :: init.drop (k + 1) :=
      List.set_eq_take_cons_drop v hk
    have htk : (init.take k).length = k := by
      rw [List.length_take]
      omega
    have h1 : (init.set k v).take (k + 1) = init.take k ++ [v] := by
      rw [hset]
      have : k + 1 = (init.take k).length + 1 := by rw [htk]
      rw [this, List.take_append]
      simp
    have h2 : (init.set k v).drop (k + 1 + vs.length) = init.drop (k + (vs.length + 1)) := by
      rw [hset]
      have heq : init.take k ++ v :: init.drop (k + 1) =
          (init.take k ++ [v]) ++ init.drop (k + 1) := by
        simp
      rw [heq]
      have hlen2 : (init.take k ++ [v]).length = k + 1 := by
        simp [htk]
      have : k + 1 + vs.length = (init.take k ++ [v]).length + vs.length := by
        rw [hlen2]
      rw [this, List.drop_append, List.drop_drop]
      have : k + 1 + vs.length = k + (vs.length + 1) := by omega
      rw [this]
    rw [h1, h2]
    simp only [List.length_cons]
    have heqn : k + (vs.length + 1) = k + vs.length + 1 := by omega
    rw [heqn]
    simp [List.append_assoc]

lemma batchWrites_eq_enum (g : PlaylistEntry → Option Data) (entries : List PlaylistEntry)
    (items : List Nat) :
    batchWrites g entries items =
      ((selectedPairs entries items).map (fun p => g p.2)).enum := by
  rw [List.enum_map]
  unfold batchWrites
  apply List.map_congr_left
  intro q _
  cases q with
  | mk i p => rfl

lemma selectedPairs_length_le (entries : List PlaylistEntry) (items : List Nat) :
    (selectedPairs entries items).length ≤ items.length := by
  have hsub : (selectedPairs entries items).Sublist entries.enum :=
    List.filter_sublist _
  have hnd1 : ((selectedPairs entries items).map Prod.fst).Nodup :=
    (hsub.map Prod.fst).nodup (List.nodup_enum_map_fst entries)
  have hnd2 : ((selectedPairs entries items).map (fun p => p.1 + 1)).Nodup := by
    have heq : ((selectedPairs entries items).map (fun p => p.1 + 1)) =
        ((selectedPairs entries items).map Prod.fst).map (fun n => n + 1) := by
      rw [List.map_map]
      rfl
    rw [heq]
    exact hnd1.map (fun a b hab => by omega)
  have hsubset : ∀ v ∈ (selectedPairs entries items).map (fun p => p.1 + 1), v ∈ items := by
    intro v hv
    rcases List.mem_map.1 hv with ⟨p, hp, hpe⟩
    have := (List.mem_filter.1 hp).2
    subst hpe
    simpa using this
  have hsp := List.subperm_of_subset hnd2 hsubset
  have := hsp.length_le
  simpa using this

lemma extractBatch_eq (g : PlaylistEntry → Option Data) (entries : List PlaylistEntry)
    (items : List Nat) :
    extractBatch g entries items =
      (selectedPairs entries items).map (fun p => g p.2) ++
      List.replicate (items.length - (selectedPairs entries items).length) none := by
  unfold extractBatch
  rw [batchWrites_eq_enum, List.enum_eq_enumFrom]
  have hle : ((selectedPairs entries items).map (fun p => g p.2)).length ≤
      (List.replicate items.length (none : Option Data)).length := by
    rw [List.length_map, List.length_replicate]
    exact selectedPairs_length_le entries items
  rw [runTasks_enumFrom _ 0 _ (by simpa using hle)]
  rw [List.take_zero, List.nil_append, Nat.zero_add, List.drop_replicate]
  rw [List.length_map]

lemma extractBatch_length (g : PlaylistEntry → Option Data) (entries : List PlaylistEntry)
    (items : List Nat) :
    (extractBatch g entries items).length = items.length := by
  rw [extractBatch_eq, List.length_append, List.length_map, List.length_replicate]
  have := selectedPairs_length_le entries items
  omega

lemma extractBatch_getElem_lt {g : PlaylistEntry → Option Data}
    {entries : List PlaylistEntry} {items : List Nat} {i : Nat} {p : Nat × PlaylistEntry}
    (hi : (selectedPairs entries items)[i]? = some p) :
    (extractBatch g entries items)[i]? = some (g p.2) := by
  obtain ⟨hlt, hget⟩ := List.getElem?_eq_some.1 hi
  rw [extractBatch_eq]
  rw [List.getElem?_append_left (by rw [List.length_map]; exact hlt)]
  rw [List.getElem?_map, hi]
  rfl

lemma extractBatch_getElem_ge {g : PlaylistEntry → Option Data}
    {entries : List PlaylistEntry} {items : List Nat} {i : Nat}
    (h : (selectedPairs entries items).length ≤ i) :
    (extractBatch g entries items)[i]? =
      if i < items.length then some none else none := by
  rw [extractBatch_eq]
  rw [List.getElem?_append_right (by rw [List.length_map]; exact h)]
  rw [List.length_map, List.getElem?_replicate]
  have hle := selectedPairs_length_le entries items
  by_cases hi : i < items.length
  · rw [if_pos hi, if_pos (by omega)]
  · rw [if_neg hi, if_neg (by omega)]

lemma runTasks_perm {α : Type} {writes writes2 : List (Nat × α)} (init : List α)
    (hperm : writes.Perm writes2)
    (hnd : (writes.map Prod.fst).Nodup) :
    runTasks writes init = runTasks writes2 init := by
  apply hperm.foldl_eq'
  intro x hx y hy z
  by_cases hxy : x.1 = y.1
  · have : x = y := List.inj_on_of_nodup_map hnd hx hy hxy
    subst this
    rfl
  · exact List.set_comm _ _ _ hxy

lemma batchWrites_keys_nodup (g : PlaylistEntry → Option Data)
    (entries : List PlaylistEntry) (items : List Nat) :
    ((batchWrites g entries items).map Prod.fst).Nodup := by
  rw [batchWrites_eq_enum]
  exact List.nodup_enum_map_fst _

lemma lastWithTag_mem {formats : List Format} {k : String} {f : Format}
    (h : lastWithTag formats k = some f) : f ∈ formats := by
  unfold lastWithTag at h
  exact (List.mem_filter.1 (List.mem_of_mem_getLast? h)).1

lemma expectedStream_shapeOK {env : Env} {video : Video} {f : Format} {s : Stream}
    (hs : expectedStream env video f = Except.ok s) :
    streamShapeOK env video f (some s) := by
  refine ⟨s, rfl, ?_⟩
  cases hgp : genPartByFormat env video f with
  | error e =>
    rw [expectedStream_of_genPart_err hgp] at hs
    cases hs
  | ok part =>
    by_cases hch : f.audioChannels = 0
    · cases hap : audioPartFor env video part.ext with
      | error e =>
        rw [expectedStream_of_zero_err hgp hch hap] at hs
        cases hs
      | ok ap =>
        rw [expectedStream_of_zero_ok hgp hch hap] at hs
        injection hs with hs2
        rw [if_pos hch, ← hs2]
        refine ⟨by simp [withAudio, baseStream], ?_, ?_⟩
        · simp [withAudio, baseStream, hgp, Except.toOption]
        · have hext : (withAudio (baseStream f part) ap).ext = part.ext := rfl
          rw [hext, hap]
          simp [withAudio, baseStream, Except.toOption]
    · rw [expectedStream_of_nonzero hgp hch] at hs
      injection hs with hs2
      rw [if_neg hch, ← hs2]
      exact ⟨by simp [baseStream], by simp [baseStream, hgp, Except.toOption]⟩

/-! ### The claims -/

/-- C1, counterexample: a format reporting two audio channels still yields
a stream with `NeedMux = true`, refuting "`NeedMux = true` iff the primary
format reports zero audio channels" and its consequence that an all-muxed
format list yields `NeedMux = false` everywhere. -/
theorem youtube_c1_counterexample :
    (youtubeDownload envOkay "https://youtu.be/v" vidMuxed).streams.map
        (fun pr => pr.2.needMux) = [true] ∧
    vidMuxed.formats.map (fun f => f.audioChannels) = [2] := by
  constructor
  · decide
  · decide

/-- C1 (amended): every stream in a `youtubeDownload` result has
`NeedMux = true` unconditionally — also when its primary format reports a
non-zero audio-channel count. -/
theorem youtube_c1_needMux_always_true (env : Env) (url : String) (video : Video)
    (pr : String × Stream) (h : pr ∈ (youtubeDownload env url video).streams) :
    pr.2.needMux = true := by
  unfold youtubeDownload at h
  rcases hr : resolveAudit env video with ⟨st, oe⟩
  rw [hr] at h
  cases oe with
  | some e => simp [EmptyData] at h
  | none =>
    have h2 : pr ∈ st.streams := h
    obtain ⟨hInv, -, -, -⟩ := resolveFormats_ok_spec env video video.formats initState st
      (Inv_initState env video) hr
    exact hInv.2.2.2.1 pr h2

/-- C1 witness: the amended theorem applied to the concrete muxed video. -/
theorem youtube_c1_witness :
    (("18", streamAV) ∈ (youtubeDownload envOkay "https://youtu.be/v" vidMuxed).streams) ∧
    streamAV.needMux = true :=
  ⟨by decide,
    youtube_c1_needMux_always_true envOkay "https://youtu.be/v" vidMuxed ("18", streamAV)
      (by decide)⟩

/-- C3: during one resolution of one video, audio lookup and audio URL
resolution are started at most once per distinct container extension —
the instrumented list of audio-resolved extensions carries no duplicate,
so each extension is counted at most once, on successful and on aborted
runs alike. -/
theorem youtube_c3_audio_resolved_once (env : Env) (video : Video) (e : String) :
    (resolveAudit env video).1.audioResolved.Nodup ∧
    (resolveAudit env video).1.audioResolved.count e ≤ 1 := by
  have hnd : (resolveAudit env video).1.audioResolved.Nodup :=
    resolveFormats_resolved_nodup env video video.formats initState
      (Inv_initState env video)
  exact ⟨hnd, List.nodup_iff_count_le_one.1 hnd e⟩

/-- C4: if the URL resolution of some format fails, or a video-only
format's audio part cannot be produced (no matching audio-only format, or
its URL resolution fails), the whole video resolution aborts with a
failure-shaped result carrying the source URL and a cause, and zero
streams. -/
theorem youtube_c4_abort_on_failure (env : Env) (url : String) (video : Video)
    (f : Format)
    (hf : f ∈ video.formats)
    (hbad : (∃ e, genPartByFormat env video f = Except.error e) ∨
      (f.audioChannels = 0 ∧
        ∃ e, audioPartFor env video (getStreamExt f.mimeType) = Except.error e)) :
    (youtubeDownload env url video).err.isSome = true ∧
    (youtubeDownload env url video).streams = [] ∧
    (youtubeDownload env url video).url = url := by
  have hexp : ∃ e, expectedStream env video f = Except.error e := by
    rcases hbad with ⟨e, hgp⟩ | ⟨hch, e, hap⟩
    · exact ⟨e, expectedStream_of_genPart_err hgp⟩
    · cases hgp : genPartByFormat env video f with
      | error e2 => exact ⟨e2, expectedStream_of_genPart_err hgp⟩
      | ok part =>
        have hext := genPart_ext hgp
        rw [← hext] at hap
        exact ⟨e, expectedStream_of_zero_err hgp hch hap⟩
  rcases hr : resolveAudit env video with ⟨st, oe⟩
  cases oe with
  | none =>
    obtain ⟨-, hall, -, -⟩ := resolveFormats_ok_spec env video video.formats initState st
      (Inv_initState env video) hr
    obtain ⟨s, hs⟩ := hall f hf
    obtain ⟨e, herr⟩ := hexp
    rw [hs] at herr
    cases herr
  | some e =>
    have hyd : youtubeDownload env url video = EmptyData url e := by
      unfold youtubeDownload
      rw [hr]
    rw [hyd]
    exact ⟨rfl, rfl, rfl⟩

/-- C4 witness: a video-only `webm` format with no audio-only `webm`
format aborts the whole video with zero streams. -/
theorem youtube_c4_witness :
    (fmtVideoOnly ∈ vidNoAudio.formats) ∧
    (fmtVideoOnly.audioChannels = 0 ∧
      audioPartFor envOkay vidNoAudio (getStreamExt fmtVideoOnly.mimeType) =
        Except.error "no audio format found after filtering") ∧
    ((youtubeDownload envOkay "https://youtu.be/v" vidNoAudio).err.isSome = true ∧
      (youtubeDownload envOkay "https://youtu.be/v" vidNoAudio).streams = [] ∧
      (youtubeDownload envOkay "https://youtu.be/v" vidNoAudio).url =
        "https://youtu.be/v") :=
  ⟨by decide, ⟨by decide, rfl⟩,
    youtube_c4_abort_on_failure envOkay "https://youtu.be/v" vidNoAudio fmtVideoOnly
      (by decide)
      (Or.inr ⟨by decide, ⟨"no audio format found after filtering", rfl⟩⟩)⟩

/-- C5, counterexample: in the single-URL path a video-metadata-fetch
failure is returned as a propagating error (`Except.error`), not as a
one-element sequence holding a failure-shaped result — refuting "any
failure yields exactly one failure-shaped result returned to the caller,
rather than a propagating error". -/
theorem youtube_c5_counterexample :
    Extract benvFail envOkay "https://youtu.be/x" optSingle =
      Except.error "video fetch failed" := rfl

/-- C5 (amended): in the single-URL path, once the video metadata fetch
succeeds, any resolution failure yields exactly one failure-shaped result
(`EmptyData` with the source URL and the cause) and a nil error; only a
metadata-fetch failure propagates as an error. -/
theorem youtube_c5_failure_shaped_single (benv : BatchEnv) (env : Env) (url : String)
    (opt : Options) (video : Video) (e : String)
    (hpl : opt.playlist = false)
    (hv : benv.getVideo url = Except.ok video)
    (he : (resolveAudit env video).2 = some e) :
    Extract benv env url opt = Except.ok [some (EmptyData url e)] := by
  unfold Extract
  rw [hpl, if_pos rfl, hv]
  show Except.ok [some (youtubeDownload env url video)] = _
  have hyd : youtubeDownload env url video = EmptyData url e := by
    unfold youtubeDownload
    rcases hr : resolveAudit env video with ⟨st, oe⟩
    rw [hr] at he
    cases oe with
    | none => exact absurd he (by simp)
    | some e2 =>
      have he2 : some e2 = some e := he
      injection he2 with he3
      show EmptyData url e2 = EmptyData url e
      rw [he3]
  rw [hyd]

/-- C5 witness: the amended theorem applied to an environment whose URL
signing fails for the (successfully fetched) muxed video. -/
theorem youtube_c5_witness :
    (optSingle.playlist = false) ∧
    (benvOkVideo.getVideo "https://youtu.be/v" = Except.ok vidMuxed) ∧
    ((resolveAudit envSignFail vidMuxed).2 = some "sign failed") ∧
    Extract benvOkVideo envSignFail "https://youtu.be/v" optSingle =
      Except.ok [some (EmptyData "https://youtu.be/v" "sign failed")] :=
  ⟨by decide, rfl, by decide,
    youtube_c5_failure_shaped_single benvOkVideo envSignFail "https://youtu.be/v"
      optSingle vidMuxed "sign failed" (by decide) rfl (by decide)⟩

/-- C6: in a successful resolution over pairwise-distinct format tags, the
stream stored for a video-only format has exactly two parts — the primary
part first and the extension-matched audio part second — while the stream
stored for a format with non-zero audio channels has exactly the primary
part. -/
theorem youtube_c6_parts_shape (env : Env) (url : String) (video : Video) (f : Format)
    (hnd : (video.formats.map (fun g => toString g.itagNo)).Nodup)
    (hok : (youtubeDownload env url video).err = none)
    (hf : f ∈ video.formats) :
    streamShapeOK env video f
      (lookupStream (youtubeDownload env url video).streams (toString f.itagNo)) := by
  rcases hr : resolveAudit env video with ⟨st, oe⟩
  cases oe with
  | some e =>
    exfalso
    unfold youtubeDownload at hok
    rw [hr] at hok
    simp [EmptyData] at hok
  | none =>
    have hyd : (youtubeDownload env url video).streams = st.streams := by
      unfold youtubeDownload
      rw [hr]
    rw [hyd]
    obtain ⟨-, hall, hsome, -⟩ := resolveFormats_ok_spec env video video.formats initState st
      (Inv_initState env video) hr
    have hlast := lastWithTag_self hnd hf
    have hlook := hsome (toString f.itagNo) f hlast
    obtain ⟨s, hs⟩ := hall f hf
    rw [hlook, hs]
    exact expectedStream_shapeOK hs

/-- C6 witness: the `1080p webm` video-only format of the two-format video
gets the two-part stream with the matched `webm` audio second. -/
theorem youtube_c6_witness :
    ((vidPair.formats.map (fun g => toString g.itagNo)).Nodup) ∧
    ((youtubeDownload envOkay "https://youtu.be/v" vidPair).err = none) ∧
    (fmtVideoOnly ∈ vidPair.formats) ∧
    streamShapeOK envOkay vidPair fmtVideoOnly
      (lookupStream (youtubeDownload envOkay "https://youtu.be/v" vidPair).streams
        (toString fmtVideoOnly.itagNo)) :=
  ⟨by decide, by decide, by decide,
    youtube_c6_parts_shape envOkay "https://youtu.be/v" vidPair fmtVideoOnly
      (by decide) (by decide) (by decide)⟩

/-- C9: when two or more formats share a tag, resolution still succeeds
(provided every format itself resolves); the stream map holds exactly one
entry for that tag, and it is the stream of the last such format in input
order — Go map assignment silently overwrites the earlier entries. -/
theorem youtube_c9_duplicate_itag_overwrite (env : Env) (url : String) (video : Video)
    (k : String) (f : Format)
    (hall : ∀ g ∈ video.formats, (expectedStream env video g).toOption.isSome = true)
    (_hdup : 2 ≤ (video.formats.filter (fun g => decide (toString g.itagNo = k))).length)
    (hlast : lastWithTag video.formats k = some f) :
    (youtubeDownload env url video).err = none ∧
    countKey (youtubeDownload env url video).streams k = 1 ∧
    lookupStream (youtubeDownload env url video).streams k =
      (expectedStream env video f).toOption := by
  have hall2 : ∀ g ∈ video.formats, ∃ s, expectedStream env video g = Except.ok s := by
    intro g hg
    have hg2 := hall g hg
    cases he : expectedStream env video g with
    | error e2 => rw [he] at hg2; simp [Except.toOption] at hg2
    | ok s => exact ⟨s, rfl⟩
  have htot : (resolveAudit env video).2 = none :=
    resolveFormats_total env video video.formats initState (Inv_initState env video) hall2
  rcases hr : resolveAudit env video with ⟨st, oe⟩
  rw [hr] at htot
  have hoe : oe = none := htot
  subst hoe
  obtain ⟨hInv, -, hsome, -⟩ := resolveFormats_ok_spec env video video.formats initState st
    (Inv_initState env video) hr
  have hyd1 : (youtubeDownload env url video).err = none := by
    unfold youtubeDownload
    rw [hr]
  have hyd2 : (youtubeDownload env url video).streams = st.streams := by
    unfold youtubeDownload
    rw [hr]
  have hlook := hsome k f hlast
  obtain ⟨s, hs⟩ := hall2 f (lastWithTag_mem hlast)
  have hlook2 : lookupStream st.streams k = some s := by
    rw [hlook, hs]
    rfl
  refine ⟨hyd1, ?_, ?_⟩
  · rw [hyd2]
    exact countKey_eq_one hInv.2.2.2.2 hlook2
  · rw [hyd2]
    exact hlook

/-- C9 witness: two formats with tag 18 resolve to one map entry built
from the second of them. -/
theorem youtube_c9_witness :
    (∀ g ∈ vidDup.formats,
      (expectedStream envOkay vidDup g).toOption.isSome = true) ∧
    (2 ≤ (vidDup.formats.filter (fun g => decide (toString g.itagNo = "18"))).length) ∧
    (lastWithTag vidDup.formats "18" = some fmtAVdup) ∧
    ((youtubeDownload envOkay "https://youtu.be/v" vidDup).err = none ∧
      countKey (youtubeDownload envOkay "https://youtu.be/v" vidDup).streams "18" = 1 ∧
      lookupStream (youtubeDownload envOkay "https://youtu.be/v" vidDup).streams "18" =
        (expectedStream envOkay vidDup fmtAVdup).toOption) :=
  ⟨by decide, by decide, by decide,
    youtube_c9_duplicate_itag_overwrite envOkay "https://youtu.be/v" vidDup "18" fmtAVdup
      (by decide) (by decide) (by decide)⟩

/-- C2: the batch output has length equal to the number of selected
indices; slot `i` holds the extraction result of the `i`-th selected entry
in original playlist order; and executing the slot writes in any
completion order (any permutation of the dispatched writes) produces the
very same output sequence. -/
theorem youtube_c2_batch_order (g : PlaylistEntry → Option Data)
    (entries : List PlaylistEntry) (items : List Nat)
    (writes : List (Nat × Option Data)) (i : Nat) (p : Nat × PlaylistEntry)
    (hperm : writes.Perm (batchWrites g entries items))
    (hi : (selectedPairs entries items)[i]? = some p) :
    runTasks writes (List.replicate items.length none) = extractBatch g entries items ∧
    (extractBatch g entries items).length = items.length ∧
    (extractBatch g entries items)[i]? = some (g p.2) := by
  refine ⟨?_, extractBatch_length g entries items, extractBatch_getElem_lt hi⟩
  have hnd : (writes.map Prod.fst).Nodup :=
    ((hperm.map Prod.fst).nodup_iff).2 (batchWrites_keys_nodup g entries items)
  exact runTasks_perm _ hperm hnd

/-- C2 witness: entries 7, selected indices {2,5,7}, the writes executed in
reversed completion order (item 7 finishes first); slot 2 still holds the
result of the 7th entry. -/
theorem youtube_c2_witness :
    ((batchWrites gBatch entriesSeven itemsSel).reverse.Perm
      (batchWrites gBatch entriesSeven itemsSel)) ∧
    ((selectedPairs entriesSeven itemsSel)[2]? = some (6, { entryId := "e7" })) ∧
    (runTasks (batchWrites gBatch entriesSeven itemsSel).reverse
        (List.replicate itemsSel.length none) =
      extractBatch gBatch entriesSeven itemsSel ∧
      (extractBatch gBatch entriesSeven itemsSel).length = itemsSel.length ∧
      (extractBatch gBatch entriesSeven itemsSel)[2]? =
        some (gBatch { entryId := "e7" })) :=
  ⟨List.reverse_perm _, by decide,
    youtube_c2_batch_order gBatch entriesSeven itemsSel
      (batchWrites gBatch entriesSeven itemsSel).reverse 2 (6, { entryId := "e7" })
      (List.reverse_perm _) (by decide)⟩

/-- C7: when the entry resolution of the `j`-th selected item fails, slot
`j` of the batch output stays unpopulated (`none`, not a failure-shaped
result), and every other slot is exactly what it is in a run where that
item does not fail. -/
theorem youtube_c7_failure_isolation (g g2 : PlaylistEntry → Option Data)
    (entries : List PlaylistEntry) (items : List Nat) (j : Nat)
    (pj : Nat × PlaylistEntry) (i : Nat)
    (hj : (selectedPairs entries items)[j]? = some pj)
    (hfail : g2 pj.2 = none)
    (hagree : ∀ i2 q, i2 ≠ j → (selectedPairs entries items)[i2]? = some q →
      g2 q.2 = g q.2)
    (hij : i ≠ j) :
    (extractBatch g2 entries items)[j]? = some none ∧
    (extractBatch g2 entries items)[i]? = (extractBatch g entries items)[i]? := by
  constructor
  · rw [extractBatch_getElem_lt hj, hfail]
  · cases hi : (selectedPairs entries items)[i]? with
    | some q =>
      rw [@extractBatch_getElem_lt g2 entries items i q hi,
        @extractBatch_getElem_lt g entries items i q hi, hagree i q hij hi]
    | none =>
      have hge : (selectedPairs entries items).length ≤ i :=
        List.getElem?_eq_none_iff.1 hi
      rw [@extractBatch_getElem_ge g2 entries items i hge,
        @extractBatch_getElem_ge g entries items i hge]

/-- C7 witness: selected indices {2,5,7}; entry `e2` (slot 0) fails its
resolution, slot 0 is `none` and slot 1 is unchanged. -/
theorem youtube_c7_witness :
    ((selectedPairs entriesSeven itemsSel)[0]? = some (1, { entryId := "e2" })) ∧
    (gBatchFail ((1 : Nat), PlaylistEntry.mk "e2").2 = none) ∧
    ((extractBatch gBatchFail entriesSeven itemsSel)[0]? = some none ∧
      (extractBatch gBatchFail entriesSeven itemsSel)[1]? =
        (extractBatch gBatch entriesSeven itemsSel)[1]?) :=
  ⟨by decide, by decide,
    youtube_c7_failure_isolation gBatch gBatchFail entriesSeven itemsSel 0
      (1, { entryId := "e2" }) 1 (by decide) (by decide)
      (by
        intro i2 q hne hq
        rcases i2 with _ | _ | _ | i3
        · exact absurd rfl hne
        · have h1 : (selectedPairs entriesSeven itemsSel)[1]? =
              some (4, PlaylistEntry.mk "e5") := by decide
          rw [h1] at hq
          injection hq with hq2
          rw [← hq2]
          decide
        · have h2 : (selectedPairs entriesSeven itemsSel)[2]? =
              some (6, PlaylistEntry.mk "e7") := by decide
          rw [h2] at hq
          injection hq with hq2
          rw [← hq2]
          decide
        · have h3 : (selectedPairs entriesSeven itemsSel)[i3 + 3]? = none := by
            apply List.getElem?_eq_none
            have hlen : (selectedPairs entriesSeven itemsSel).length = 3 := by decide
            omega
          rw [h3] at hq
          cases hq)
      (by decide)⟩

/-- C8: the derived file extension is the second capture of the leftmost
`(\w+)/(\w+);` match — `video/webm; …` gives `webm` — and a mime type
containing no `;` yields the empty string as a normal value. -/
theorem youtube_c8_stream_ext (t sub r : List Char) (s : String)
    (ht : (∀ c ∈ t, isWordChar c = true) ∧ t ≠ [])
    (hsub : (∀ c ∈ sub, isWordChar c = true) ∧ sub ≠ [])
    (hs : ';' ∉ s.data) :
    getStreamExt (String.mk (t ++ '/' :: (sub ++ ';' :: r))) = String.mk sub ∧
    getStreamExt s = "" := by
  constructor
  · unfold getStreamExt
    have hdata : (String.mk (t ++ '/' :: (sub ++ ';' :: r))).data =
        t ++ '/' :: (sub ++ ';' :: r) := rfl
    rw [hdata, findMatch_word_prefix t sub r ht.1 ht.2 hsub.1 hsub.2]
  · unfold getStreamExt
    cases hm : findMatch s.data with
    | none => rfl
    | some p => exact absurd (findMatch_semicolon hm) hs

/-- C8 witness: `video/webm; codecs=x` gives `webm`; `video/webm` (no `;`)
gives `""`. -/
theorem youtube_c8_witness :
    getStreamExt (String.mk ("video".data ++ '/' ::
      ("webm".data ++ ';' :: " codecs=x".data))) = String.mk "webm".data ∧
    getStreamExt "video/webm" = "" :=
  youtube_c8_stream_ext "video".data "webm".data " codecs=x".data "video/webm"
    ⟨by decide, by decide⟩ ⟨by decide, by decide⟩ (by decide)

/-- C10: in playlist mode, once the playlist resolves, `Extract` returns
the batch output with a nil error — whatever the per-entry resolution
does — and that output has one slot per selected index. -/
theorem youtube_c10_playlist_total (benv : BatchEnv) (env : Env) (url : String)
    (opt : Options) (entries : List PlaylistEntry)
    (hpl : opt.playlist = true)
    (hok : benv.getPlaylist url = Except.ok entries) :
    Extract benv env url opt =
      Except.ok (extractBatch (extractOneEntry benv env url) entries
        (benv.needDownloadList opt.items opt.itemStart opt.itemEnd entries.length)) ∧
    (extractBatch (extractOneEntry benv env url) entries
      (benv.needDownloadList opt.items opt.itemStart opt.itemEnd entries.length)).length =
      (benv.needDownloadList opt.items opt.itemStart opt.itemEnd entries.length).length := by
  constructor
  · unfold Extract
    rw [hpl, if_neg (by simp), hok]
  · exact extractBatch_length _ _ _

/-- C10 witness: a playlist whose every entry fails to resolve still
returns a nil error and a 3-slot output. -/
theorem youtube_c10_witness :
    (optList.playlist = true) ∧
    (benvEntriesFail.getPlaylist "https://youtu.be/pl" = Except.ok entriesSeven) ∧
    (Extract benvEntriesFail envOkay "https://youtu.be/pl" optList =
      Except.ok (extractBatch (extractOneEntry benvEntriesFail envOkay "https://youtu.be/pl")
        entriesSeven
        (benvEntriesFail.needDownloadList optList.items optList.itemStart optList.itemEnd
          entriesSeven.length)) ∧
      (extractBatch (extractOneEntry benvEntriesFail envOkay "https://youtu.be/pl")
        entriesSeven
        (benvEntriesFail.needDownloadList optList.items optList.itemStart optList.itemEnd
          entriesSeven.length)).length =
      (benvEntriesFail.needDownloadList optList.items optList.itemStart optList.itemEnd
        entriesSeven.length).length) :=
  ⟨by decide, rfl,
    youtube_c10_playlist_total benvEntriesFail envOkay "https://youtu.be/pl" optList
      entriesSeven (by decide) rfl⟩

end Lux
